import Mathlib

/-!
Verification of the `converge` peer-to-peer signalling library.

The development shallowly embeds the two core components:

* the signalling relay (`attach` in the server package): a room registry
  (`rooms : Record<string, Socket[]>`) with a reverse lookup
  (`reverseRoomLookup : Record<string, string>`), driven by `join` and
  `disconnect` socket events;
* the client session manager (`ConvergeClient`) and the per-peer handle
  (`ConvergeRemotePeer`), with the peer map, local presence, the wire
  envelope encoding (`ProtocolHeading`), and the send/receive paths.

JavaScript string-keyed objects are modelled as association lists in
insertion order: `obj[k]` is `alLookup`, `obj[k] = v` is `alUpdate`
(replace in place, or append when the key is new), `delete obj[k]` is
`alErase`.  `Array.prototype.splice(indexOf(x), 1)` is `spliceRemove`,
including the JavaScript behaviour of `splice(-1, 1)` removing the last
element when `x` is absent.
-/

namespace Converge

/-- `obj[key]` on a string-keyed record, scanning in insertion order. -/
def alLookup {β : Type _} : List (String × β) → String → Option β
  | [], _ => none
  | (k, v) :: rest, key => if k = key then some v else alLookup rest key

/-- `obj[key] = v`: replace the existing entry in place, else append. -/
def alUpdate {β : Type _} : List (String × β) → String → β → List (String × β)
  | [], key, v => [(key, v)]
  | (k, w) :: rest, key, v =>
    if k = key then (k, v) :: rest else (k, w) :: alUpdate rest key v

/-- `delete obj[key]`: drop the entry with that key, if present. -/
def alErase {β : Type _} : List (String × β) → String → List (String × β)
  | [], _ => []
  | (k, w) :: rest, key => if k = key then rest else (k, w) :: alErase rest key

theorem alLookup_alUpdate {β : Type _} (l : List (String × β)) (k k' : String) (v : β) :
    alLookup (alUpdate l k v) k' = if k = k' then some v else alLookup l k' := by
  induction l with
  | nil => simp [alUpdate, alLookup]
  | cons e rest ih =>
    obtain ⟨a, b⟩ := e
    simp only [alUpdate]
    by_cases hak : a = k
    · subst hak
      rw [if_pos rfl]
      simp only [alLookup]
      by_cases h : a = k' <;> simp [h]
    · simp only [if_neg hak, alLookup]
      by_cases h : a = k'
      · subst h
        have hka : ¬ k = a := fun hh => hak hh.symm
        simp [alLookup, hka]
      · simp [h, ih]

theorem alLookup_alErase_ne {β : Type _} (l : List (String × β)) (k k' : String)
    (h : k' ≠ k) : alLookup (alErase l k) k' = alLookup l k' := by
  induction l with
  | nil => simp [alErase]
  | cons e rest ih =>
    obtain ⟨a, b⟩ := e
    simp only [alErase]
    by_cases hak : a = k
    · subst hak
      have hne : ¬ a = k' := fun hh => h hh.symm
      simp [alLookup, hne]
    · by_cases h' : a = k'
      · subst h'
        simp [alLookup, hak]
      · simp [alLookup, hak, h', ih]

theorem alLookup_eq_none_of_not_mem_keys {β : Type _} (l : List (String × β)) (k : String)
    (h : k ∉ l.map Prod.fst) : alLookup l k = none := by
  induction l with
  | nil => rfl
  | cons e rest ih =>
    obtain ⟨a, b⟩ := e
    simp only [List.map_cons, List.mem_cons] at h
    push_neg at h
    have hne : ¬ a = k := fun hh => h.1 hh.symm
    simp [alLookup, hne, ih h.2]

theorem alLookup_alErase_self {β : Type _} (l : List (String × β)) (k : String)
    (hnd : (l.map Prod.fst).Nodup) : alLookup (alErase l k) k = none := by
  induction l with
  | nil => rfl
  | cons e rest ih =>
    obtain ⟨a, b⟩ := e
    simp only [List.map_cons, List.nodup_cons] at hnd
    by_cases hak : a = k
    · subst hak
      simp only [alErase, if_pos rfl]
      exact alLookup_eq_none_of_not_mem_keys rest a hnd.1
    · simp [alErase, alLookup, hak, ih hnd.2]

theorem mem_keys_alUpdate {β : Type _} (l : List (String × β)) (k a : String) (v : β) :
    a ∈ (alUpdate l k v).map Prod.fst ↔ a ∈ l.map Prod.fst ∨ a = k := by
  induction l with
  | nil => simp [alUpdate]
  | cons e rest ih =>
    obtain ⟨x, b⟩ := e
    simp only [alUpdate]
    by_cases hxk : x = k
    · subst hxk
      rw [if_pos rfl]
      simp only [List.map_cons, List.mem_cons]
      tauto
    · simp only [if_neg hxk, List.map_cons, List.mem_cons, ih]
      tauto

theorem nodup_keys_alUpdate {β : Type _} (l : List (String × β)) (k : String) (v : β)
    (hnd : (l.map Prod.fst).Nodup) : ((alUpdate l k v).map Prod.fst).Nodup := by
  induction l with
  | nil => simp [alUpdate]
  | cons e rest ih =>
    obtain ⟨x, b⟩ := e
    simp only [List.map_cons, List.nodup_cons] at hnd
    simp only [alUpdate]
    by_cases hxk : x = k
    · subst hxk
      rw [if_pos rfl]
      simp only [List.map_cons, List.nodup_cons]
      exact hnd
    · simp only [if_neg hxk, List.map_cons, List.nodup_cons]
      refine ⟨?_, ih hnd.2⟩
      intro hmem
      rcases (mem_keys_alUpdate rest k x v).mp hmem with h | h
      · exact hnd.1 h
      · exact hxk h

theorem keys_alErase_sublist {β : Type _} (l : List (String × β)) (k : String) :
    ((alErase l k).map Prod.fst).Sublist (l.map Prod.fst) := by
  induction l with
  | nil => simp [alErase]
  | cons e rest ih =>
    obtain ⟨x, b⟩ := e
    simp only [alErase]
    by_cases hxk : x = k
    · simp only [if_pos hxk, List.map_cons]
      exact List.sublist_cons_self x (rest.map Prod.fst)
    · simp only [if_neg hxk, List.map_cons]
      exact ih.cons₂ x

theorem nodup_keys_alErase {β : Type _} (l : List (String × β)) (k : String)
    (hnd : (l.map Prod.fst).Nodup) : ((alErase l k).map Prod.fst).Nodup :=
  (keys_alErase_sublist l k).nodup hnd

/-- `room.splice(room.indexOf(x), 1)`: remove the first occurrence of `x`,
or — when `x` is absent, so `indexOf` returns `-1` — remove the last
element. -/
def spliceRemove (xs : List String) (x : String) : List String :=
  if x ∈ xs then xs.erase x else xs.dropLast

theorem spliceRemove_sublist (xs : List String) (x : String) :
    (spliceRemove xs x).Sublist xs := by
  unfold spliceRemove
  by_cases h : x ∈ xs
  · simpa [h] using xs.erase_sublist x
  · simpa [h] using xs.dropLast_sublist

/-! ## Signalling relay (`attach`)

State: `rooms : Record<string, Socket[]>` (sockets are represented by
their relay-assigned string identifiers, which are unique per socket)
and `reverseRoomLookup : Record<string, string>`. -/

structure RelayState where
  rooms : List (String × List String)
  reverseRoomLookup : List (String × String)
deriving DecidableEq, Repr

/-- Both registries start empty when `attach` is called. -/
def relayInit : RelayState := ⟨[], []⟩

/-- The member identifier list of a room (`rooms[room]`, empty when the
room does not exist). -/
def roomMembers (st : RelayState) (room : String) : List String :=
  (alLookup st.rooms room).getD []

/-- The `join` handler: read (or create) `rooms[room]`, emit the current
member ids to the joiner, then push the joiner and record the reverse
lookup.  Returns the new state and the emitted `peers` payload. -/
def joinOp (st : RelayState) (room : String) (sockId : String) :
    RelayState × List String :=
  let peers := (alLookup st.rooms room).getD []
  ({ rooms := alUpdate st.rooms room (peers ++ [sockId]),
     reverseRoomLookup := alUpdate st.reverseRoomLookup sockId room },
   peers)

/-- The `disconnect` handler: look the socket's room up via
`reverseRoomLookup`, `splice` the socket out, and either
`delete rooms[socket.id]` when the room became empty or emit
`peer-disconnected` to each remaining member.  Returns the new state and
the notifications as (recipient, departed id) pairs.  Note two faithful
quirks of the source: the deletion targets key `socket.id` (not the room
name), and `reverseRoomLookup` is never cleaned up. -/
def disconnectOp (st : RelayState) (sockId : String) :
    RelayState × List (String × String) :=
  match alLookup st.reverseRoomLookup sockId with
  | none => (st, [])
  | some roomId =>
    match alLookup st.rooms roomId with
    | none => (st, [])
    | some members =>
      if (spliceRemove members sockId).isEmpty then
        ({ st with rooms :=
            alErase (alUpdate st.rooms roomId (spliceRemove members sockId)) sockId },
         [])
      else
        ({ st with rooms := alUpdate st.rooms roomId (spliceRemove members sockId) },
         (spliceRemove members sockId).map (fun p => (p, sockId)))

theorem roomMembers_joinOp (st : RelayState) (room sockId r : String) :
    roomMembers (joinOp st room sockId).1 r =
      if room = r then roomMembers st room ++ [sockId] else roomMembers st r := by
  unfold roomMembers joinOp
  simp only [alLookup_alUpdate]
  by_cases h : room = r <;> simp [h]

theorem nodup_rooms_keys_joinOp (st : RelayState) (room sockId : String)
    (h : (st.rooms.map Prod.fst).Nodup) :
    ((joinOp st room sockId).1.rooms.map Prod.fst).Nodup :=
  nodup_keys_alUpdate _ _ _ h

/-- The `disconnect` handler changes `rooms` in one of three ways: not at
all, splice-then-delete, or splice only. -/
theorem disconnectOp_rooms_spec (st : RelayState) (sockId : String) :
    (disconnectOp st sockId).1.rooms = st.rooms ∨
    ∃ roomId members, alLookup st.rooms roomId = some members ∧
      ((disconnectOp st sockId).1.rooms =
         alErase (alUpdate st.rooms roomId (spliceRemove members sockId)) sockId ∨
       (disconnectOp st sockId).1.rooms =
         alUpdate st.rooms roomId (spliceRemove members sockId)) := by
  unfold disconnectOp
  split
  · exact Or.inl rfl
  · rename_i roomId hrev
    split
    · exact Or.inl rfl
    · rename_i members hroom
      split
      · exact Or.inr ⟨roomId, members, hroom, Or.inl rfl⟩
      · exact Or.inr ⟨roomId, members, hroom, Or.inr rfl⟩

theorem nodup_rooms_keys_disconnectOp (st : RelayState) (sockId : String)
    (h : (st.rooms.map Prod.fst).Nodup) :
    ((disconnectOp st sockId).1.rooms.map Prod.fst).Nodup := by
  rcases disconnectOp_rooms_spec st sockId with heq | ⟨roomId, members, _, heq | heq⟩
  · rw [heq]; exact h
  · rw [heq]; exact nodup_keys_alErase _ _ (nodup_keys_alUpdate _ _ _ h)
  · rw [heq]; exact nodup_keys_alUpdate _ _ _ h

theorem mem_roomMembers_disconnectOp (st : RelayState) (sockId s r : String)
    (hnd : (st.rooms.map Prod.fst).Nodup)
    (hmem : s ∈ roomMembers (disconnectOp st sockId).1 r) :
    s ∈ roomMembers st r := by
  have hupd : ∀ roomId members, alLookup st.rooms roomId = some members →
      s ∈ (alLookup (alUpdate st.rooms roomId (spliceRemove members sockId)) r).getD [] →
      s ∈ roomMembers st r := by
    intro roomId members hroom hx
    unfold roomMembers
    rw [alLookup_alUpdate] at hx
    by_cases hr : roomId = r
    · subst hr
      rw [if_pos rfl] at hx
      rw [hroom]
      exact (spliceRemove_sublist members sockId).subset (by simpa using hx)
    · rw [if_neg hr] at hx
      exact hx
  rcases disconnectOp_rooms_spec st sockId with heq | ⟨roomId, members, hroom, heq | heq⟩
  · unfold roomMembers at hmem
    rw [heq] at hmem
    exact hmem
  · unfold roomMembers at hmem
    rw [heq] at hmem
    by_cases hs : r = sockId
    · subst hs
      rw [alLookup_alErase_self _ _ (nodup_keys_alUpdate _ _ _ hnd)] at hmem
      simp at hmem
    · rw [alLookup_alErase_ne _ _ _ hs] at hmem
      exact hupd roomId members hroom hmem
  · unfold roomMembers at hmem
    rw [heq] at hmem
    exact hupd roomId members hroom hmem

/-- Relay states reachable from `attach`'s initial empty registries by
arbitrary interleavings of `join` and `disconnect` events. -/
inductive Reachable : RelayState → Prop
  | init : Reachable relayInit
  | join (st : RelayState) (room sockId : String) :
      Reachable st → Reachable (joinOp st room sockId).1
  | disconnect (st : RelayState) (sockId : String) :
      Reachable st → Reachable (disconnectOp st sockId).1

/-- Relay states reachable when every connection issues at most one
`join` over its lifetime; `joined` records the ids that have joined. -/
inductive ReachableSingleJoin : RelayState → List String → Prop
  | init : ReachableSingleJoin relayInit []
  | join (st : RelayState) (joined : List String) (room sockId : String) :
      ReachableSingleJoin st joined → sockId ∉ joined →
      ReachableSingleJoin (joinOp st room sockId).1 (sockId :: joined)
  | disconnect (st : RelayState) (joined : List String) (sockId : String) :
      ReachableSingleJoin st joined →
      ReachableSingleJoin (disconnectOp st sockId).1 joined

/-- The inductive invariant carried along single-join traces: room keys
are distinct, ids that never joined are in no room, and every id is in
at most one room. -/
def RelayInv (st : RelayState) (joined : List String) : Prop :=
  (st.rooms.map Prod.fst).Nodup ∧
  (∀ s, s ∉ joined → ∀ r, s ∉ roomMembers st r) ∧
  (∀ s r1 r2, s ∈ roomMembers st r1 → s ∈ roomMembers st r2 → r1 = r2)

theorem relayInv_of_reachableSingleJoin {st : RelayState} {joined : List String}
    (h : ReachableSingleJoin st joined) : RelayInv st joined := by
  induction h with
  | init =>
    refine ⟨by simp [relayInit], ?_, ?_⟩
    · intro s _ r
      simp [roomMembers, relayInit, alLookup]
    · intro s r1 r2 h1 _
      simp [roomMembers, relayInit, alLookup] at h1
  | join st joined room sockId hre hnotin ih =>
    obtain ⟨ihnd, ihfresh, ihone⟩ := ih
    refine ⟨nodup_rooms_keys_joinOp st room sockId ihnd, ?_, ?_⟩
    · intro s hs r
      rw [roomMembers_joinOp]
      have hs' : s ≠ sockId ∧ s ∉ joined := by simpa [not_or] using hs
      by_cases hr : room = r
      · rw [if_pos hr]
        intro hmem
        rcases List.mem_append.mp hmem with hmem | hmem
        · exact ihfresh s hs'.2 room hmem
        · exact hs'.1 (by simpa using hmem)
      · rw [if_neg hr]
        exact ihfresh s hs'.2 r
    · intro s r1 r2 h1 h2
      rw [roomMembers_joinOp] at h1 h2
      by_cases hsx : s = sockId
      · subst hsx
        have hr1 : room = r1 := by
          by_contra hne
          rw [if_neg hne] at h1
          exact ihfresh s hnotin r1 h1
        have hr2 : room = r2 := by
          by_contra hne
          rw [if_neg hne] at h2
          exact ihfresh s hnotin r2 h2
        rw [← hr1, ← hr2]
      · have h1' : s ∈ roomMembers st r1 := by
          by_cases hr : room = r1
          · rw [if_pos hr] at h1
            rcases List.mem_append.mp h1 with hh | hh
            · rw [← hr]; exact hh
            · exact absurd (by simpa using hh) hsx
          · rw [if_neg hr] at h1; exact h1
        have h2' : s ∈ roomMembers st r2 := by
          by_cases hr : room = r2
          · rw [if_pos hr] at h2
            rcases List.mem_append.mp h2 with hh | hh
            · rw [← hr]; exact hh
            · exact absurd (by simpa using hh) hsx
          · rw [if_neg hr] at h2; exact h2
        exact ihone s r1 r2 h1' h2'
  | disconnect st joined sockId hre ih =>
    obtain ⟨ihnd, ihfresh, ihone⟩ := ih
    refine ⟨nodup_rooms_keys_disconnectOp st sockId ihnd, ?_, ?_⟩
    · intro s hs r hmem
      exact ihfresh s hs r (mem_roomMembers_disconnectOp st sockId s r ihnd hmem)
    · intro s r1 r2 h1 h2
      exact ihone s r1 r2 (mem_roomMembers_disconnectOp st sockId s r1 ihnd h1)
        (mem_roomMembers_disconnectOp st sockId s r2 ihnd h2)

/-! ## Claim theorems about the relay -/

/-- Claim C1 (counterexample): the returned snapshot CAN contain the
joiner's own identifier — a connection that joins the same room a second
time receives itself in the member list, because `join` returns
`rooms[room]` without filtering. -/
theorem join_rejoin_includes_self :
    "c" ∈ (joinOp (joinOp relayInit "r" "c").1 "r" "c").2 := by decide

/-- Claim C1 (amended): `Join(room, c)` returns exactly the member list
of the room immediately before the call, and appends `c` only after
that snapshot is taken (so later joiners are not retroactively
included); the snapshot excludes `c`'s own identifier provided `c` is
not already a member of the room. -/
theorem joinOp_snapshot_excludes_new_joiner (st : RelayState) (room sockId : String) :
    (joinOp st room sockId).2 = roomMembers st room ∧
    roomMembers (joinOp st room sockId).1 room = roomMembers st room ++ [sockId] ∧
    (sockId ∉ roomMembers st room → sockId ∉ (joinOp st room sockId).2) := by
  refine ⟨rfl, ?_, ?_⟩
  · rw [roomMembers_joinOp, if_pos rfl]
  · intro h hmem
    exact h hmem

/-- Witness for the amended C1 at a concrete input. -/
theorem joinOp_snapshot_excludes_new_joiner_witness :
    "c" ∉ roomMembers relayInit "r" ∧ "c" ∉ (joinOp relayInit "r" "c").2 :=
  ⟨by decide, (joinOp_snapshot_excludes_new_joiner relayInit "r" "c").2.2 (by decide)⟩

/-- Claim C3 (code evaluated at the failing input): disconnecting the
last member of room "a" (socket id "s") does NOT delete the room — the
handler executes `delete rooms[socket.id]` instead of
`delete rooms[roomId]`, so the registry keeps `"a" ↦ []`.  The second
half of the claim still holds observably: a subsequent join of "a"
returns an empty prior-member list. -/
theorem disconnect_last_member_room_persists :
    alLookup ((disconnectOp (joinOp relayInit "a" "s").1 "s").1).rooms "a" = some [] ∧
    (joinOp (disconnectOp (joinOp relayInit "a" "s").1 "s").1 "a" "s2").2 = [] := by
  decide

/-- Claim C4 (code evaluated at the failing input): `disconnect` is not
idempotent.  With room "t" = [s1, s2], disconnecting s1 twice removes
s2 as well: the stale `reverseRoomLookup` entry for s1 survives the
first disconnect, `indexOf` then returns -1, and `splice(-1, 1)` drops
the last member.  No `peer-disconnected` notification is emitted for
the silently removed s2. -/
theorem disconnect_repeat_removes_last_member :
    roomMembers
        ((disconnectOp (joinOp (joinOp relayInit "t" "s1").1 "t" "s2").1 "s1").1) "t"
      = ["s2"] ∧
    roomMembers
        ((disconnectOp
          (disconnectOp (joinOp (joinOp relayInit "t" "s1").1 "t" "s2").1 "s1").1
          "s1").1) "t"
      = [] ∧
    (disconnectOp
        (disconnectOp (joinOp (joinOp relayInit "t" "s1").1 "t" "s2").1 "s1").1
        "s1").2
      = [] := by
  decide

/-- Claim C9 (counterexample): a reachable relay state in which the same
connection "c" is a member of the two distinct rooms "A" and "B" — a
second `join` adds the connection to the new room without removing it
from the old one. -/
theorem double_join_member_of_two_rooms :
    Reachable (joinOp (joinOp relayInit "A" "c").1 "B" "c").1 ∧
    "c" ∈ roomMembers (joinOp (joinOp relayInit "A" "c").1 "B" "c").1 "A" ∧
    "c" ∈ roomMembers (joinOp (joinOp relayInit "A" "c").1 "B" "c").1 "B" ∧
    "A" ≠ "B" :=
  ⟨Reachable.join _ "B" "c" (Reachable.join _ "A" "c" Reachable.init),
   by decide, by decide, by decide⟩

/-- Claim C9 (amended): in every relay state reachable by traces in
which each connection issues at most one `Join`, each connection handle
is a member of at most one room.  (Without that restriction the
invariant fails: see the counterexample, where a second `Join` leaves
the connection in two rooms.) -/
theorem reachable_single_join_at_most_one_room (st : RelayState) (joined : List String)
    (h : ReachableSingleJoin st joined) (s r1 r2 : String)
    (h1 : s ∈ roomMembers st r1) (h2 : s ∈ roomMembers st r2) : r1 = r2 :=
  (relayInv_of_reachableSingleJoin h).2.2 s r1 r2 h1 h2

/-- Witness for the amended C9 at a concrete single-join trace. -/
theorem reachable_single_join_at_most_one_room_witness :
    "c" ∈ roomMembers (joinOp relayInit "r" "c").1 "r" ∧ "r" = "r" :=
  ⟨by decide,
   reachable_single_join_at_most_one_room _ ["c"]
     (ReachableSingleJoin.join relayInit [] "r" "c" ReachableSingleJoin.init
       (by decide))
     "c" "r" "r" (by decide) (by decide)⟩

/-! ## Client session manager (`ConvergeClient` / `ConvergeRemotePeer`)

Message and presence bodies are opaque (`any` in the source); the model
is parametric in their type `α`.  `JSON.stringify([type, message])`
followed by `JSON.parse` on the receiving side round-trips, so the wire
unit is modelled directly as the `[kind, body]` pair. -/

/-- The `ProtocolHeading` string enum of the peer channel protocol. -/
def ProtocolHeading.Presence : String := "p"

def ProtocolHeading.Broadcast : String := "b"

def ProtocolHeading.DirectMessage : String := "d"

/-- A `[kind, body]` envelope as passed to `channel.send`. -/
structure Envelope (α : Type _) where
  kind : String
  body : α
deriving DecidableEq, Repr

/-- Negotiation messages routed into a peer's RTC connection
(`setRemoteDescription` / `createAnswer` / `addIceCandidate`),
recorded as a trace. -/
inductive PeerSignal
  | offer (sdp : String)
  | answer (sdp : String)
  | candidate (payload : String)
deriving DecidableEq, Repr

/-- Errors thrown by the client code: `'Peer ... not connected'` from
`directMessage` (the spec's `UnknownPeer`), and `'no data channel'`
from `_sendRaw`. -/
inductive ClientError
  | unknownPeer
  | noDataChannel
deriving DecidableEq, Repr

/-- `ConvergeRemotePeer`: the remote id, its last-known presence, whether
`dataChannels['data']` exists, the envelopes passed to `channel.send`,
and the signalling messages routed into the RTC connection. -/
structure ConvergeRemotePeer (α : Type _) where
  id : String
  presence : Option α := none
  hasDataChannel : Bool := false
  sent : List (Envelope α) := []
  signals : List PeerSignal := []
deriving DecidableEq, Repr

/-- `new ConvergeRemotePeer(peerId)`. -/
def newRemotePeer {α : Type _} (peerId : String) : ConvergeRemotePeer α :=
  { id := peerId }

/-- events re-emitted after decoding an inbound envelope. -/
inductive PeerEvent (α : Type _)
  | presenceChanged (v : α)
  | message (v : α)
  | directMessage (v : α)
deriving DecidableEq, Repr

/-- `_sendRaw`: send on `dataChannels['data']`, or throw
`'no data channel'` when it does not exist. -/
def ConvergeRemotePeer.sendRaw {α : Type _} (p : ConvergeRemotePeer α) (e : Envelope α) :
    Except ClientError (ConvergeRemotePeer α) :=
  if p.hasDataChannel then .ok { p with sent := p.sent ++ [e] }
  else .error .noDataChannel

/-- `_connect`: `setupDefaultDataChannel()` registers
`dataChannels['data']`; the offer creation is driven by the external
RTC capability. -/
def ConvergeRemotePeer.connect {α : Type _} (p : ConvergeRemotePeer α) :
    ConvergeRemotePeer α :=
  { p with hasDataChannel := true }

/-- `_handleOffer`: hand an inbound offer to the RTC connection. -/
def ConvergeRemotePeer.handleOffer {α : Type _} (p : ConvergeRemotePeer α) (sdp : String) :
    ConvergeRemotePeer α :=
  { p with signals := p.signals ++ [.offer sdp] }

/-- `_handleAnswer`. -/
def ConvergeRemotePeer.handleAnswer {α : Type _} (p : ConvergeRemotePeer α) (sdp : String) :
    ConvergeRemotePeer α :=
  { p with signals := p.signals ++ [.answer sdp] }

/-- `_handleCandidate`. -/
def ConvergeRemotePeer.handleCandidate {α : Type _} (p : ConvergeRemotePeer α)
    (payload : String) : ConvergeRemotePeer α :=
  { p with signals := p.signals ++ [.candidate payload] }

/-- `handleDataChannelMessage`: decode `[type, payload]`; `'p'` stores
the presence and emits `presenceChanged`, `'b'` emits `message`
(re-emitted by the client as `broadcast`), `'d'` emits `directMessage`;
any other kind is dropped. -/
def ConvergeRemotePeer.handleDataChannelMessage {α : Type _} (p : ConvergeRemotePeer α)
    (e : Envelope α) : ConvergeRemotePeer α × Option (PeerEvent α) :=
  if e.kind = ProtocolHeading.Presence then
    ({ p with presence := some e.body }, some (.presenceChanged e.body))
  else if e.kind = ProtocolHeading.Broadcast then
    (p, some (.message e.body))
  else if e.kind = ProtocolHeading.DirectMessage then
    (p, some (.directMessage e.body))
  else
    (p, none)

/-- `sendMessage`: note the literal `'m'` heading, taken from the v1
protocol rather than from `ProtocolHeading`. -/
def ConvergeRemotePeer.sendMessage {α : Type _} (p : ConvergeRemotePeer α) (message : α) :
    Except ClientError (ConvergeRemotePeer α) :=
  p.sendRaw ⟨"m", message⟩

/-- `sendPresence`: a `'p'` envelope to this peer only. -/
def ConvergeRemotePeer.sendPresence {α : Type _} (p : ConvergeRemotePeer α) (presence : α) :
    Except ClientError (ConvergeRemotePeer α) :=
  p.sendRaw ⟨"p", presence⟩

/-- `ConvergeClient`: the peer map `_peers` (insertion-ordered, as a JS
object) and the local `_presence`. -/
structure ConvergeClient (α : Type _) where
  peers : List (String × ConvergeRemotePeer α) := []
  presence : Option α := none
deriving DecidableEq, Repr

/-- A freshly constructed client: no peers, undefined presence. -/
def clientInit (α : Type _) : ConvergeClient α := {}

/-- `setupRemotePeer`: create and register a handle only when none
exists for `peerId`; an existing handle is left in place. -/
def ConvergeClient.setupRemotePeer {α : Type _} (c : ConvergeClient α) (peerId : String) :
    ConvergeClient α :=
  if (alLookup c.peers peerId).isSome then c
  else { c with peers := alUpdate c.peers peerId (newRemotePeer peerId) }

/-- Mutate the registered handle for `peerId` in place (the JS methods
mutate `this._peers[peerId]`). -/
def ConvergeClient.modifyPeer {α : Type _} (c : ConvergeClient α) (peerId : String)
    (f : ConvergeRemotePeer α → ConvergeRemotePeer α) : ConvergeClient α :=
  match alLookup c.peers peerId with
  | none => c
  | some p => { c with peers := alUpdate c.peers peerId (f p) }

/-- `handlePeers`: for each member id of the `peers` payload, set up a
handle (initiator role) and `_connect()` it. -/
def ConvergeClient.handlePeers {α : Type _} (c : ConvergeClient α) (peerIds : List String) :
    ConvergeClient α :=
  peerIds.foldl
    (fun acc peerId =>
      (acc.setupRemotePeer peerId).modifyPeer peerId ConvergeRemotePeer.connect)
    c

/-- `offer` / `answer` relay event payload. -/
structure SdpMessage where
  sdp : String
  peerId : String
  sourcePeerId : String
deriving DecidableEq, Repr

/-- `candidate` relay event payload. -/
structure CandidateMessage where
  candidate : String
  peerId : String
  sourcePeerId : String
deriving DecidableEq, Repr

/-- Inbound `offer`: set up the handle for the source (creating it when
absent) and route the offer into it. -/
def ConvergeClient.handleOffer {α : Type _} (c : ConvergeClient α) (m : SdpMessage) :
    ConvergeClient α :=
  (c.setupRemotePeer m.sourcePeerId).modifyPeer m.sourcePeerId
    (fun p => p.handleOffer m.sdp)

/-- Inbound `answer`: routed only when a handle for the source exists. -/
def ConvergeClient.handleAnswer {α : Type _} (c : ConvergeClient α) (m : SdpMessage) :
    ConvergeClient α :=
  match alLookup c.peers m.sourcePeerId with
  | none => c
  | some p => { c with peers := alUpdate c.peers m.sourcePeerId (p.handleAnswer m.sdp) }

/-- Inbound `candidate`: routed only when a handle for the source
exists. -/
def ConvergeClient.handleCandidate {α : Type _} (c : ConvergeClient α)
    (m : CandidateMessage) : ConvergeClient α :=
  match alLookup c.peers m.sourcePeerId with
  | none => c
  | some p =>
    { c with peers := alUpdate c.peers m.sourcePeerId (p.handleCandidate m.candidate) }

/-- The `for..of Object.values(this._peers)` loop of `broadcastRaw`:
send to each handle in insertion order; a throwing `_sendRaw` aborts
the loop, leaving the remaining handles untouched and surfacing the
error. -/
def broadcastRawGo {α : Type _} (ty : String) (message : α) :
    List (String × ConvergeRemotePeer α) →
      List (String × ConvergeRemotePeer α) × Option ClientError
  | [] => ([], none)
  | (k, p) :: rest =>
    match p.sendRaw ⟨ty, message⟩ with
    | .ok p' =>
      let r := broadcastRawGo ty message rest
      ((k, p') :: r.1, r.2)
    | .error e => ((k, p) :: rest, some e)

/-- `broadcastRaw(type, message)`. -/
def ConvergeClient.broadcastRaw {α : Type _} (c : ConvergeClient α) (ty : String)
    (message : α) : ConvergeClient α × Option ClientError :=
  let r := broadcastRawGo ty message c.peers
  ({ c with peers := r.1 }, r.2)

/-- `broadcast(message)`: a `ProtocolHeading.Broadcast` envelope to all
registered peers. -/
def ConvergeClient.broadcast {α : Type _} (c : ConvergeClient α) (message : α) :
    ConvergeClient α × Option ClientError :=
  c.broadcastRaw ProtocolHeading.Broadcast message

/-- `updatePresence(presence)`: store `_presence` first, then broadcast
a `ProtocolHeading.Presence` envelope. -/
def ConvergeClient.updatePresence {α : Type _} (c : ConvergeClient α) (presence : α) :
    ConvergeClient α × Option ClientError :=
  ConvergeClient.broadcastRaw { c with presence := some presence }
    ProtocolHeading.Presence presence

/-- `getPresence(peerId)`: the last-known presence of that peer, `null`
when unknown. -/
def ConvergeClient.getPresence {α : Type _} (c : ConvergeClient α) (peerId : String) :
    Option α :=
  match alLookup c.peers peerId with
  | none => none
  | some p => p.presence

/-- `directMessage(peerId, message)`: throw when no handle exists,
otherwise send a `ProtocolHeading.DirectMessage` envelope to that
handle only. -/
def ConvergeClient.directMessage {α : Type _} (c : ConvergeClient α) (peerId : String)
    (message : α) : ConvergeClient α × Option ClientError :=
  match alLookup c.peers peerId with
  | none => (c, some .unknownPeer)
  | some p =>
    match p.sendRaw ⟨ProtocolHeading.DirectMessage, message⟩ with
    | .ok p' => ({ c with peers := alUpdate c.peers peerId p' }, none)
    | .error e => (c, some e)

theorem keys_alUpdate_of_isSome {β : Type _} (l : List (String × β)) (k : String) (v : β)
    (h : (alLookup l k).isSome) :
    (alUpdate l k v).map Prod.fst = l.map Prod.fst := by
  induction l with
  | nil => simp [alLookup] at h
  | cons e rest ih =>
    obtain ⟨a, b⟩ := e
    simp only [alUpdate]
    by_cases hak : a = k
    · rw [if_pos hak]
      simp [hak]
    · rw [if_neg hak]
      simp only [alLookup, if_neg hak] at h
      simp [ih h]

theorem broadcastRawGo_all_channels {α : Type _} (ty : String) (message : α)
    (l : List (String × ConvergeRemotePeer α))
    (h : ∀ e ∈ l, e.2.hasDataChannel = true) :
    broadcastRawGo ty message l =
      (l.map (fun e => (e.1, { e.2 with sent := e.2.sent ++ [⟨ty, message⟩] })), none) := by
  induction l with
  | nil => rfl
  | cons e rest ih =>
    obtain ⟨k, p⟩ := e
    have hp : p.hasDataChannel = true := h (k, p) (List.mem_cons_self _ _)
    have hrest := ih (fun x hx => h x (List.mem_cons_of_mem _ hx))
    simp [broadcastRawGo, ConvergeRemotePeer.sendRaw, hp, hrest]

/-! ## Claim theorems about the client -/

/-- A client holding a responder-side handle "a" whose data channel has
not arrived yet, followed by a fully connected handle "b". -/
def c2Client : ConvergeClient Nat :=
  { peers := [("a", { id := "a" }), ("b", { id := "b", hasDataChannel := true })] }

/-- Claim C2 (counterexample): broadcasting over a peer set containing a
not-yet-connected handle is not a silent skip — `_sendRaw` throws
`'no data channel'`, the loop aborts, and the connected handle "b"
(later in insertion order) receives nothing. -/
theorem broadcast_not_silently_skipped :
    (c2Client.broadcast 7).2 = some ClientError.noDataChannel ∧
    (c2Client.broadcast 7).1.peers.map (fun e => (e.1, e.2.sent)) =
      [("a", []), ("b", [])] := by decide

/-- Claim C2 (amended): `broadcast` wraps the message in a
`ProtocolHeading.Broadcast` envelope and attempts delivery to every
registered handle in insertion order; when every handle has its data
channel the envelope reaches all of them and only them (no retroactive
delivery to handles registered afterwards).  When some handle lacks its
channel, the send throws and aborts the loop rather than silently
skipping that handle (see the counterexample). -/
theorem broadcast_reaches_all_when_channels_ready {α : Type _} (c : ConvergeClient α)
    (message : α) (h : ∀ e ∈ c.peers, e.2.hasDataChannel = true) :
    (c.broadcast message).2 = none ∧
    (c.broadcast message).1.peers = c.peers.map (fun e =>
      (e.1, { e.2 with sent := e.2.sent ++ [⟨ProtocolHeading.Broadcast, message⟩] })) := by
  unfold ConvergeClient.broadcast ConvergeClient.broadcastRaw
  rw [broadcastRawGo_all_channels _ _ _ h]
  exact ⟨rfl, rfl⟩

/-- A client whose single handle "b" is connected. -/
def c2ReadyClient : ConvergeClient Nat :=
  { peers := [("b", { id := "b", hasDataChannel := true })] }

/-- Witness for the amended C2 at a concrete input. -/
theorem broadcast_reaches_all_when_channels_ready_witness :
    (∀ e ∈ c2ReadyClient.peers, e.2.hasDataChannel = true) ∧
    (c2ReadyClient.broadcast 3).2 = none :=
  ⟨by decide, (broadcast_reaches_all_when_channels_ready c2ReadyClient 3 (by decide)).1⟩

/-- Claim C5: `directMessage` fails with the unknown-peer error when no
handle exists for `peerId` and the client state is unchanged (nothing
is sent to anyone); when a handle exists, only that handle receives the
`ProtocolHeading.DirectMessage` envelope — the handle of every other
identifier is untouched. -/
theorem directMessage_unknown_peer_and_targeting {α : Type _} (c : ConvergeClient α)
    (peerId : String) (message : α) :
    (alLookup c.peers peerId = none →
      c.directMessage peerId message = (c, some ClientError.unknownPeer)) ∧
    (∀ q, q ≠ peerId →
      alLookup (c.directMessage peerId message).1.peers q = alLookup c.peers q) ∧
    (∀ p, alLookup c.peers peerId = some p → p.hasDataChannel = true →
      alLookup (c.directMessage peerId message).1.peers peerId =
        some { p with sent := p.sent ++ [⟨ProtocolHeading.DirectMessage, message⟩] }) := by
  refine ⟨?_, ?_, ?_⟩
  · intro h
    simp [ConvergeClient.directMessage, h]
  · intro q hq
    cases hl : alLookup c.peers peerId with
    | none => simp [ConvergeClient.directMessage, hl]
    | some p =>
      cases hch : p.hasDataChannel with
      | false =>
        simp [ConvergeClient.directMessage, hl, ConvergeRemotePeer.sendRaw, hch]
      | true =>
        simp [ConvergeClient.directMessage, hl, ConvergeRemotePeer.sendRaw, hch,
          alLookup_alUpdate, Ne.symm hq]
  · intro p hp hch
    simp [ConvergeClient.directMessage, hp, ConvergeRemotePeer.sendRaw, hch,
      alLookup_alUpdate]

/-- A client holding a single connected handle "x". -/
def c5Client : ConvergeClient Nat :=
  { peers := [("x", { id := "x", hasDataChannel := true })] }

/-- Witness for C5 at concrete inputs: the unknown target "y" errors and
changes nothing, and a message to "x" lands in "x"'s send log. -/
theorem directMessage_unknown_peer_and_targeting_witness :
    c5Client.directMessage "y" 5 = (c5Client, some ClientError.unknownPeer) ∧
    alLookup (c5Client.directMessage "x" 5).1.peers "x" =
      some { id := "x", hasDataChannel := true,
             sent := [⟨ProtocolHeading.DirectMessage, 5⟩] } :=
  ⟨(directMessage_unknown_peer_and_targeting c5Client "y" 5).1 (by decide),
   by
    have h := (directMessage_unknown_peer_and_targeting c5Client "x" 5).2.2
      { id := "x", hasDataChannel := true } (by decide) (by decide)
    simpa using h⟩

/-- Claim C6 (counterexample): an inbound Answer (and likewise a
Candidate) whose `sourcePeerId` has no handle is dropped: no handle is
created and the client is unchanged, contrary to the claim that all of
Offer/Answer/Candidate create the missing handle. -/
theorem answer_without_handle_dropped :
    ConvergeClient.handleAnswer (clientInit Nat) ⟨"sdp", "me", "s"⟩ = clientInit Nat ∧
    alLookup (ConvergeClient.handleAnswer (clientInit Nat) ⟨"sdp", "me", "s"⟩).peers "s"
      = none ∧
    ConvergeClient.handleCandidate (clientInit Nat) ⟨"cand", "me", "s"⟩
      = clientInit Nat := by decide

/-- Claim C6 (amended): an inbound Offer is routed to the handle for its
`sourcePeerId`, creating the handle first when absent; inbound Answer
and Candidate events are routed to the existing handle for their
`sourcePeerId` but are silently dropped when no such handle exists. -/
theorem inbound_signal_routing {α : Type _} (c : ConvergeClient α) (m : SdpMessage)
    (cm : CandidateMessage) :
    (alLookup c.peers m.sourcePeerId = none →
      alLookup (c.handleOffer m).peers m.sourcePeerId =
        some (ConvergeRemotePeer.handleOffer (newRemotePeer m.sourcePeerId) m.sdp)) ∧
    (∀ p, alLookup c.peers m.sourcePeerId = some p →
      alLookup (c.handleOffer m).peers m.sourcePeerId =
        some (ConvergeRemotePeer.handleOffer p m.sdp)) ∧
    (alLookup c.peers m.sourcePeerId = none → c.handleAnswer m = c) ∧
    (∀ p, alLookup c.peers m.sourcePeerId = some p →
      alLookup (c.handleAnswer m).peers m.sourcePeerId =
        some (ConvergeRemotePeer.handleAnswer p m.sdp)) ∧
    (alLookup c.peers cm.sourcePeerId = none → c.handleCandidate cm = c) ∧
    (∀ p, alLookup c.peers cm.sourcePeerId = some p →
      alLookup (c.handleCandidate cm).peers cm.sourcePeerId =
        some (ConvergeRemotePeer.handleCandidate p cm.candidate)) := by
  refine ⟨?_, ?_, ?_, ?_, ?_, ?_⟩
  · intro h
    simp [ConvergeClient.handleOffer, ConvergeClient.setupRemotePeer,
      ConvergeClient.modifyPeer, h, alLookup_alUpdate]
  · intro p hp
    simp [ConvergeClient.handleOffer, ConvergeClient.setupRemotePeer,
      ConvergeClient.modifyPeer, hp, alLookup_alUpdate]
  · intro h
    simp [ConvergeClient.handleAnswer, h]
  · intro p hp
    simp [ConvergeClient.handleAnswer, hp, alLookup_alUpdate]
  · intro h
    simp [ConvergeClient.handleCandidate, h]
  · intro p hp
    simp [ConvergeClient.handleCandidate, hp, alLookup_alUpdate]

/-- Witness for the amended C6: an Offer from unknown "s" creates and
routes to a fresh handle; an Answer from known "s" is routed to it. -/
theorem inbound_signal_routing_witness :
    alLookup ((clientInit Nat).handleOffer ⟨"o", "me", "s"⟩).peers "s" =
      some (ConvergeRemotePeer.handleOffer (newRemotePeer "s") "o") ∧
    alLookup
        (((clientInit Nat).handleOffer ⟨"o", "me", "s"⟩).handleAnswer
          ⟨"a", "me", "s"⟩).peers "s" =
      some (ConvergeRemotePeer.handleAnswer
        (ConvergeRemotePeer.handleOffer (newRemotePeer "s") "o") "a") :=
  ⟨(inbound_signal_routing (clientInit Nat) ⟨"o", "me", "s"⟩ ⟨"x", "me", "s"⟩).1
     (by decide),
   (inbound_signal_routing ((clientInit Nat).handleOffer ⟨"o", "me", "s"⟩)
      ⟨"a", "me", "s"⟩ ⟨"x", "me", "s"⟩).2.2.2.1 _ (by decide)⟩

/-- A connected peer handle used to evaluate the send helpers. -/
def c7Peer : ConvergeRemotePeer Nat := { id := "q", hasDataChannel := true }

/-- Claim C7 (code evaluated at the failing input): `sendMessage` tags
its envelope with the literal `'m'` — a leftover of the v1 protocol,
not a `ProtocolHeading` member — and the decoder recognises only
`'p'`/`'b'`/`'d'`, so a `sendMessage` envelope is silently dropped on
receipt.  The remaining send paths do use `'p'`/`'b'`/`'d'` and the
decoder maps them to the corresponding events. -/
theorem sendMessage_kind_not_decoded :
    c7Peer.sendMessage 5 = Except.ok { c7Peer with sent := [⟨"m", 5⟩] } ∧
    ("m" ≠ ProtocolHeading.Presence ∧ "m" ≠ ProtocolHeading.Broadcast ∧
      "m" ≠ ProtocolHeading.DirectMessage) ∧
    (c7Peer.handleDataChannelMessage ⟨"m", 5⟩).2 = none ∧
    c7Peer.sendPresence 6 = Except.ok { c7Peer with sent := [⟨ProtocolHeading.Presence, 6⟩] } ∧
    (c7Peer.handleDataChannelMessage ⟨ProtocolHeading.Presence, 6⟩).2 =
      some (PeerEvent.presenceChanged 6) ∧
    (c7Peer.handleDataChannelMessage ⟨ProtocolHeading.Broadcast, 7⟩).2 =
      some (PeerEvent.message 7) ∧
    (c7Peer.handleDataChannelMessage ⟨ProtocolHeading.DirectMessage, 8⟩).2 =
      some (PeerEvent.directMessage 8) := by
  refine ⟨rfl, by decide, by decide, rfl, by decide, by decide, by decide⟩

/-- Claim C8: no two handles for the same identifier coexist:
`setupRemotePeer` is a no-op when a handle already exists, it preserves
distinctness of the registered identifiers, and a repeated inbound
Offer or member-list appearance for an existing identifier leaves the
set of registered identifiers unchanged (no new handle). -/
theorem setupRemotePeer_no_duplicate_handles {α : Type _} (c : ConvergeClient α)
    (peerId : String) (m : SdpMessage) :
    ((alLookup c.peers peerId).isSome → c.setupRemotePeer peerId = c) ∧
    ((c.peers.map Prod.fst).Nodup →
      ((c.setupRemotePeer peerId).peers.map Prod.fst).Nodup) ∧
    ((alLookup c.peers m.sourcePeerId).isSome →
      (c.handleOffer m).peers.map Prod.fst = c.peers.map Prod.fst) ∧
    ((alLookup c.peers peerId).isSome →
      (c.handlePeers [peerId]).peers.map Prod.fst = c.peers.map Prod.fst) := by
  refine ⟨?_, ?_, ?_, ?_⟩
  · intro h
    unfold ConvergeClient.setupRemotePeer
    rw [if_pos h]
  · intro hnd
    unfold ConvergeClient.setupRemotePeer
    by_cases h : (alLookup c.peers peerId).isSome
    · rw [if_pos h]
      exact hnd
    · rw [if_neg h]
      exact nodup_keys_alUpdate _ _ _ hnd
  · intro h
    obtain ⟨p, hp⟩ := Option.isSome_iff_exists.mp h
    unfold ConvergeClient.handleOffer ConvergeClient.setupRemotePeer
    rw [if_pos h]
    unfold ConvergeClient.modifyPeer
    rw [hp]
    exact keys_alUpdate_of_isSome _ _ _ h
  · intro h
    obtain ⟨p, hp⟩ := Option.isSome_iff_exists.mp h
    unfold ConvergeClient.handlePeers
    simp only [List.foldl_cons, List.foldl_nil]
    unfold ConvergeClient.setupRemotePeer
    rw [if_pos h]
    unfold ConvergeClient.modifyPeer
    rw [hp]
    exact keys_alUpdate_of_isSome _ _ _ h

/-- Witness for C8 at a concrete input: a client already holding "x"
is unchanged by a second `setupRemotePeer`, keeps distinct keys, and a
repeated Offer/member-list appearance adds no handle. -/
theorem setupRemotePeer_no_duplicate_handles_witness :
    c5Client.setupRemotePeer "x" = c5Client ∧
    ((c5Client.setupRemotePeer "x").peers.map Prod.fst).Nodup ∧
    (c5Client.handleOffer ⟨"o", "me", "x"⟩).peers.map Prod.fst =
      c5Client.peers.map Prod.fst :=
  ⟨(setupRemotePeer_no_duplicate_handles c5Client "x" ⟨"o", "me", "x"⟩).1 (by decide),
   (setupRemotePeer_no_duplicate_handles c5Client "x" ⟨"o", "me", "x"⟩).2.1 (by decide),
   (setupRemotePeer_no_duplicate_handles c5Client "x" ⟨"o", "me", "x"⟩).2.2.1
     (by decide)⟩

/-- Claim C10: `updatePresence(v)` assigns `_presence = v` before
broadcasting the `'p'` envelope, so after the call the presence getter
returns `v` unconditionally — in particular even when sending to some
peer throws `'no data channel'`. -/
theorem updatePresence_stores_before_send {α : Type _} (c : ConvergeClient α) (v : α) :
    (c.updatePresence v).1.presence = some v := rfl

end Converge
